import Mathlib

/-!
Verification of the bounding-box utilities of the deep-learning lab notebooks
(`Lab_5.ipynb`: `iou`, `tensorize_ground_truth`, `interpret_output`,
`accuracy_and_iou`; `Assignment_2.ipynb`: `get_predicted_word`,
`generate_text`; webcam lab: `camera_grab`).

Python floats are modelled by exact rationals (`ℚ`); a Python
`ZeroDivisionError` is modelled by an `Option`/`Except` result. Where a
property hinges on rounding (the box round trip of `interpret_output`),
the pipeline is additionally modelled at IEEE-754 double precision:
every double is an exact rational and `roundDouble` performs the
round-to-nearest-even step after each arithmetic operation.
-/

/-- An axis-aligned box in corner form, the 4-element list
`[x_min, y_min, x_max, y_max]` used throughout `Lab_5.ipynb`
(`box[0] = xmin`, `box[1] = ymin`, `box[2] = xmax`, `box[3] = ymax`). -/
structure Box where
  xmin : ℚ
  ymin : ℚ
  xmax : ℚ
  ymax : ℚ
deriving DecidableEq, Repr

/-- `iou(boxA, boxB)` from `Lab_5.ipynb`:

```python
def iou(boxA, boxB):
    x0 = max(boxA[0], boxB[0])
    y0 = max(boxA[1], boxB[1])
    x1 = min(boxA[2], boxB[2])
    y1 = min(boxA[3], boxB[3])
    inter_area = max(x1 - x0, 0) * max(y1 - y0, 0)
    boxA_area = (boxA[2] - boxA[0]) * (boxA[3] - boxA[1])
    boxB_area = (boxB[2] - boxB[0]) * (boxB[3] - boxB[1])
    return inter_area / float(boxA_area + boxB_area - inter_area)
```

The division raises `ZeroDivisionError` when the denominator is zero, which
the embedding models as `none`. -/
def iou (boxA boxB : Box) : Option ℚ :=
  let x0 := max boxA.xmin boxB.xmin
  let y0 := max boxA.ymin boxB.ymin
  let x1 := min boxA.xmax boxB.xmax
  let y1 := min boxA.ymax boxB.ymax
  let inter_area := max (x1 - x0) 0 * max (y1 - y0) 0
  let boxA_area := (boxA.xmax - boxA.xmin) * (boxA.ymax - boxA.ymin)
  let boxB_area := (boxB.xmax - boxB.xmin) * (boxB.ymax - boxB.ymin)
  if boxA_area + boxB_area - inter_area = 0 then none
  else some (inter_area / (boxA_area + boxB_area - inter_area))

/-- The area `(box[2] - box[0]) * (box[3] - box[1])` computed inside `iou`. -/
def boxArea (A : Box) : ℚ := (A.xmax - A.xmin) * (A.ymax - A.ymin)

/-- The quantity `inter_area` computed inside `iou`. -/
def interArea (A B : Box) : ℚ :=
  max (min A.xmax B.xmax - max A.xmin B.xmin) 0 *
    max (min A.ymax B.ymax - max A.ymin B.ymin) 0

/-- The corners of the box are ordered: `x_min ≤ x_max` and `y_min ≤ y_max`. -/
def orderedBox (A : Box) : Prop := A.xmin ≤ A.xmax ∧ A.ymin ≤ A.ymax

instance (A : Box) : Decidable (orderedBox A) := by
  unfold orderedBox; infer_instance

/-- The interiors of the two boxes share no point on at least one axis:
the intersection interval computed by `iou` is empty or degenerate on
the x axis or on the y axis. -/
def disjointBoxes (A B : Box) : Prop :=
  min A.xmax B.xmax ≤ max A.xmin B.xmin ∨ min A.ymax B.ymax ≤ max A.ymin B.ymin

instance (A B : Box) : Decidable (disjointBoxes A B) := by
  unfold disjointBoxes; infer_instance

theorem iou_eq (A B : Box) :
    iou A B =
      if boxArea A + boxArea B - interArea A B = 0 then none
      else some (interArea A B / (boxArea A + boxArea B - interArea A B)) := rfl

theorem interArea_nonneg (A B : Box) : 0 ≤ interArea A B :=
  mul_nonneg (le_max_right _ _) (le_max_right _ _)

theorem boxArea_nonneg (A : Box) (hA : orderedBox A) : 0 ≤ boxArea A :=
  mul_nonneg (by linarith [hA.1]) (by linarith [hA.2])

theorem interArea_le_left (A B : Box) (hA : orderedBox A) :
    interArea A B ≤ boxArea A := by
  unfold interArea boxArea
  have hx : max (min A.xmax B.xmax - max A.xmin B.xmin) 0 ≤ A.xmax - A.xmin := by
    apply max_le
    · exact sub_le_sub (min_le_left _ _) (le_max_left _ _)
    · linarith [hA.1]
  have hy : max (min A.ymax B.ymax - max A.ymin B.ymin) 0 ≤ A.ymax - A.ymin := by
    apply max_le
    · exact sub_le_sub (min_le_left _ _) (le_max_left _ _)
    · linarith [hA.2]
  exact mul_le_mul hx hy (le_max_right _ _) (by linarith [hA.1])

theorem interArea_le_right (A B : Box) (hB : orderedBox B) :
    interArea A B ≤ boxArea B := by
  unfold interArea boxArea
  have hx : max (min A.xmax B.xmax - max A.xmin B.xmin) 0 ≤ B.xmax - B.xmin := by
    apply max_le
    · exact sub_le_sub (min_le_right _ _) (le_max_right _ _)
    · linarith [hB.1]
  have hy : max (min A.ymax B.ymax - max A.ymin B.ymin) 0 ≤ B.ymax - B.ymin := by
    apply max_le
    · exact sub_le_sub (min_le_right _ _) (le_max_right _ _)
    · linarith [hB.2]
  exact mul_le_mul hx hy (le_max_right _ _) (by linarith [hB.1])

/-! ## Claims C1 - C5: properties of `iou` -/

/-- C1 (counterexample): the claim "for every box A in corner form,
`iou(A, A)` returns exactly 1.0" fails at the zero-area box
`[0, 0, 0, 0]`: there the denominator `boxA_area + boxB_area - inter_area`
is zero, so the source raises `ZeroDivisionError` (modelled as `none`)
instead of returning 1.0. -/
theorem iou_self_zero_area_counterexample :
    iou ⟨0, 0, 0, 0⟩ ⟨0, 0, 0, 0⟩ ≠ some 1 := by
  have h : iou ⟨0, 0, 0, 0⟩ ⟨0, 0, 0, 0⟩ = none := by norm_num [iou]
  rw [h]
  exact fun hc => Option.noConfusion hc

/-- C1 (amended): for every box A in corner form with ordered corners and
nonzero area, `iou(A, A)` returns exactly 1.0. -/
theorem iou_self (A : Box) (hA : orderedBox A) (hpos : boxArea A ≠ 0) :
    iou A A = some 1 := by
  have hinter : interArea A A = boxArea A := by
    unfold interArea boxArea
    rw [min_self, min_self, max_self, max_self,
      max_eq_left (by linarith [hA.1]), max_eq_left (by linarith [hA.2])]
  rw [iou_eq, hinter]
  have hd : boxArea A + boxArea A - boxArea A = boxArea A := by ring
  rw [hd, if_neg hpos, div_self hpos]

/-- C1 (witness): at the claim's own example box `[47, 35, 147, 101]`,
which is ordered and has area 6600, `iou` of the box with itself is 1. -/
theorem iou_self_witness :
    iou ⟨47, 35, 147, 101⟩ ⟨47, 35, 147, 101⟩ = some 1 :=
  iou_self ⟨47, 35, 147, 101⟩ (by norm_num [orderedBox]) (by norm_num [boxArea])

/-- C2 (counterexample): the claim "for every pair of disjoint corner-form
boxes A and B, `iou(A, B)` returns exactly 0.0" fails at the pair of
zero-area boxes `[0,0,0,0]` and `[5,5,5,5]`: their interiors share no
point on either axis, yet the denominator is zero and the source raises
`ZeroDivisionError` (modelled as `none`) instead of returning 0.0. -/
theorem iou_disjoint_counterexample :
    disjointBoxes ⟨0, 0, 0, 0⟩ ⟨5, 5, 5, 5⟩ ∧
      iou ⟨0, 0, 0, 0⟩ ⟨5, 5, 5, 5⟩ ≠ some 0 := by
  constructor
  · norm_num [disjointBoxes]
  · have h : iou ⟨0, 0, 0, 0⟩ ⟨5, 5, 5, 5⟩ = none := by norm_num [iou]
    rw [h]
    exact fun hc => Option.noConfusion hc

/-- C2 (amended): for every pair of corner-form boxes A and B with ordered
corners whose interiors share no point on at least one axis, and at least
one of which has nonzero area, `iou(A, B)` returns exactly 0.0 (the
intersection area is floored at zero by `max(·, 0)` on each axis). -/
theorem iou_disjoint (A B : Box) (hA : orderedBox A) (hB : orderedBox B)
    (hd : disjointBoxes A B) (hpos : boxArea A ≠ 0 ∨ boxArea B ≠ 0) :
    iou A B = some 0 := by
  have hinter : interArea A B = 0 := by
    unfold interArea
    rcases hd with hx | hy
    · rw [max_eq_right (by linarith [hx] : min A.xmax B.xmax - max A.xmin B.xmin ≤ 0)]
      ring
    · rw [max_eq_right (by linarith [hy] : min A.ymax B.ymax - max A.ymin B.ymin ≤ 0)]
      ring
  have hden : boxArea A + boxArea B - interArea A B ≠ 0 := by
    rw [hinter]
    have h1 := boxArea_nonneg A hA
    have h2 := boxArea_nonneg B hB
    rcases hpos with h | h
    · have : 0 < boxArea A := lt_of_le_of_ne h1 (Ne.symm h)
      intro hc; linarith
    · have : 0 < boxArea B := lt_of_le_of_ne h2 (Ne.symm h)
      intro hc; linarith
  rw [iou_eq, if_neg hden, hinter, zero_div]

/-- C2 (witness): the claim's own example pair `[47,35,147,101]` and
`[1,124,496,235]` is disjoint (on the y axis) and has positive areas,
and `iou` returns 0 there. -/
theorem iou_disjoint_witness :
    iou ⟨47, 35, 147, 101⟩ ⟨1, 124, 496, 235⟩ = some 0 :=
  iou_disjoint ⟨47, 35, 147, 101⟩ ⟨1, 124, 496, 235⟩
    (by norm_num [orderedBox]) (by norm_num [orderedBox])
    (by norm_num [disjointBoxes]) (Or.inl (by norm_num [boxArea]))

/-- C3: `iou` is symmetric: for every pair of corner-form boxes A and B,
`iou(A, B) = iou(B, A)` (also in the exceptional zero-denominator case). -/
theorem iou_comm (A B : Box) : iou A B = iou B A := by
  rw [iou_eq, iou_eq]
  have hi : interArea A B = interArea B A := by
    unfold interArea
    rw [min_comm A.xmax, min_comm A.ymax, max_comm A.xmin, max_comm A.ymin]
  rw [hi, add_comm (boxArea A)]

/-- C4 (counterexample): the claim "`iou([47,35,147,101], [49,36,145,100])`
is approximately 0.89" is false: the source returns exactly
6144/6600 = 256/275 = 0.93090..., which exceeds 0.89 by more than 0.04. -/
theorem iou_nested_counterexample :
    iou ⟨47, 35, 147, 101⟩ ⟨49, 36, 145, 100⟩ = some (256 / 275) ∧
      (89 / 100 : ℚ) + 1 / 25 < 256 / 275 := by
  constructor
  · norm_num [iou]
  · norm_num

/-- C4 (amended): for A = [47,35,147,101] and B = [49,36,145,100]
(B nested inside A except for a sliver on the left and bottom edges),
`iou(A, B)` returns exactly 6144/6600 = 256/275, approximately 0.93. -/
theorem iou_nested :
    iou ⟨47, 35, 147, 101⟩ ⟨49, 36, 145, 100⟩ = some (256 / 275) ∧
      |(256 / 275 : ℚ) - 93 / 100| < 1 / 100 := by
  constructor
  · norm_num [iou]
  · rw [abs_of_pos (by norm_num)]
    norm_num

/-- C5: for boxes with ordered corners, the denominator
`boxA_area + boxB_area - inter_area` computed by `iou` is zero (the
`ZeroDivisionError` case, modelled as `none`) if and only if both boxes
have zero area; hence when at least one box has positive area the
division never divides by zero and `iou` returns a value. -/
theorem iou_denominator_zero_iff (A B : Box)
    (hA : orderedBox A) (hB : orderedBox B) :
    (iou A B = none ↔ boxArea A = 0 ∧ boxArea B = 0) ∧
      ((0 < boxArea A ∨ 0 < boxArea B) → ∃ q, iou A B = some q) := by
  have hiAB := interArea_le_left A B hA
  have hiBA := interArea_le_right A B hB
  have hi0 := interArea_nonneg A B
  have haA := boxArea_nonneg A hA
  have haB := boxArea_nonneg B hB
  constructor
  · constructor
    · intro h
      rw [iou_eq] at h
      by_cases hd : boxArea A + boxArea B - interArea A B = 0
      · constructor <;> linarith
      · rw [if_neg hd] at h
        exact absurd h (fun hc => Option.noConfusion hc)
    · intro h
      have hi : interArea A B = 0 := by linarith [h.1]
      rw [iou_eq, if_pos (by rw [h.1, h.2, hi]; ring)]
  · intro h
    have hd : boxArea A + boxArea B - interArea A B ≠ 0 := by
      rcases h with h | h <;> intro hc <;> linarith
    exact ⟨_, by rw [iou_eq, if_neg hd]⟩

/-- C5 (witness): at the ordered boxes `[0,0,1,1]` and `[2,2,3,3]` the
denominator characterization and the no-division-by-zero consequence hold
concretely. -/
theorem iou_denominator_zero_iff_witness :
    ((iou ⟨0, 0, 1, 1⟩ ⟨2, 2, 3, 3⟩ = none ↔
        boxArea ⟨0, 0, 1, 1⟩ = 0 ∧ boxArea ⟨2, 2, 3, 3⟩ = 0) ∧
      ((0 < boxArea ⟨0, 0, 1, 1⟩ ∨ 0 < boxArea ⟨2, 2, 3, 3⟩) →
        ∃ q, iou ⟨0, 0, 1, 1⟩ ⟨2, 2, 3, 3⟩ = some q)) :=
  iou_denominator_zero_iff ⟨0, 0, 1, 1⟩ ⟨2, 2, 3, 3⟩
    (by norm_num [orderedBox]) (by norm_num [orderedBox])

/-! ## Box coordinate transforms (`Lab_5.ipynb`) -/

/-- The notebook global `img_resize = 224`, the fixed training resolution. -/
def img_resize : ℚ := 224

/-- One entry of the `annotations` list of `Lab_5.ipynb`: a dict with keys
`"class"` (a label string), `"bbox"` (the corner-form pixel box
`[x1, y1, x2, y2]`, integer coordinates from the VOC annotations) and
`"size"` (the image size `(width, height)`). -/
structure AnnRecord where
  cls : String
  bbox : ℤ × ℤ × ℤ × ℤ
  size : ℤ × ℤ
deriving DecidableEq, Repr

/-- Python `int(...)`: truncation of a real number toward zero. -/
def pyInt (q : ℚ) : ℤ := if 0 ≤ q then ⌊q⌋ else ⌈q⌉

/-- The per-annotation box computation of the loop body of
`tensorize_ground_truth`:

```python
x1, y1, x2, y2 = (coords[0] * img_resize / size[0],
                  coords[1] * img_resize / size[1],
                  coords[2] * img_resize / size[0],
                  coords[3] * img_resize / size[1])
cx, cy = ((x2 + x1) / 2, (y2 + y1) / 2)
w = x2 - x1
h = y2 - y1
boxes = np.array([cx, cy, w, h])
```

This version computes the source's float expressions in exact rational
arithmetic; `tensorize_box_double` below is the same computation at IEEE
double precision, rounding after every operation. -/
def tensorize_box (ann : AnnRecord) : ℚ × ℚ × ℚ × ℚ :=
  let coords := ann.bbox
  let size := ann.size
  let x1 : ℚ := (coords.1 : ℚ) * img_resize / (size.1 : ℚ)
  let y1 : ℚ := (coords.2.1 : ℚ) * img_resize / (size.2 : ℚ)
  let x2 : ℚ := (coords.2.2.1 : ℚ) * img_resize / (size.1 : ℚ)
  let y2 : ℚ := (coords.2.2.2 : ℚ) * img_resize / (size.2 : ℚ)
  let cx : ℚ := (x2 + x1) / 2
  let cy : ℚ := (y2 + y1) / 2
  let w : ℚ := x2 - x1
  let h : ℚ := y2 - y1
  (cx, cy, w, h)

/-- The one-hot class encoding of the loop body of `tensorize_ground_truth`:
`cls = np.zeros((num_classes)); cls[cls_idx] = 1.0`. -/
def one_hot (num_classes : ℕ) (cls_idx : ℕ) : List ℚ :=
  (List.range num_classes).map (fun j => if j = cls_idx then 1 else 0)

/-- `tensorize_ground_truth(annotations)` from `Lab_5.ipynb`: maps each
annotation to a one-hot class vector (via the notebook's `labels2idx`
dict, a parameter here because it is built from the downloaded dataset)
and a center-form box rescaled to `img_resize`; the two stacked tensors
are modelled as two lists. -/
def tensorize_ground_truth (labels2idx : String → ℕ) (num_classes : ℕ)
    (anns : List AnnRecord) : List (List ℚ) × List (ℚ × ℚ × ℚ × ℚ) :=
  (anns.map (fun ann => one_hot num_classes (labels2idx ann.cls)),
   anns.map tensorize_box)

/-- `np.argmax` on a vector of probabilities: index of the first maximal
entry (0 on the empty list, as a total model). -/
def argmax_go : List ℚ → ℕ → ℚ → ℕ → ℕ
  | [], best, _, _ => best
  | x :: xs, best, bestv, i =>
      if bestv < x then argmax_go xs i x (i + 1) else argmax_go xs best bestv (i + 1)

def np_argmax : List ℚ → ℕ
  | [] => 0
  | x :: xs => argmax_go xs 0 x 1

/-- The output dict of `interpret_output`:
`{"class": classname, "confidence": confidence, "bbox": fullsize_box}`. -/
structure DetOutput where
  cls : String
  confidence : ℚ
  bbox : ℤ × ℤ × ℤ × ℤ
deriving DecidableEq, Repr

/-- The box computation of `interpret_output`:

```python
small_box = [max(0, cx - w / 2), max(0, cy - h / 2),
             min(img_resize, cx + w / 2), min(img_resize, cy + h / 2)]
fullsize_box = [int(small_box[0] * img_size[0] / img_resize),
                int(small_box[1] * img_size[1] / img_resize),
                int(small_box[2] * img_size[0] / img_resize),
                int(small_box[3] * img_size[1] / img_resize)]
```

This version computes the source's float expressions in exact rational
arithmetic, where `pyInt` recovers integer-valued results exactly;
`interpret_box_double` below is the same computation at IEEE double
precision, where products that round to just below an integer lose a
whole pixel to the `int()` truncation. -/
def interpret_box (boxes : ℚ × ℚ × ℚ × ℚ) (img_size : ℤ × ℤ) : ℤ × ℤ × ℤ × ℤ :=
  let cx := boxes.1
  let cy := boxes.2.1
  let w := boxes.2.2.1
  let h := boxes.2.2.2
  let small0 := max 0 (cx - w / 2)
  let small1 := max 0 (cy - h / 2)
  let small2 := min img_resize (cx + w / 2)
  let small3 := min img_resize (cy + h / 2)
  (pyInt (small0 * (img_size.1 : ℚ) / img_resize),
   pyInt (small1 * (img_size.2 : ℚ) / img_resize),
   pyInt (small2 * (img_size.1 : ℚ) / img_resize),
   pyInt (small3 * (img_size.2 : ℚ) / img_resize))

/-- `interpret_output(cls, boxes, img_size)` from `Lab_5.ipynb`: takes the
argmax class with its confidence (via the notebook's `idx2labels` dict, a
parameter here) and converts the center-form box back to a full-size
corner-form box. -/
def interpret_output (idx2labels : ℕ → String) (cls : List ℚ)
    (boxes : ℚ × ℚ × ℚ × ℚ) (img_size : ℤ × ℤ) : DetOutput :=
  let cls_idx := np_argmax cls
  let confidence := cls.getD cls_idx 0
  let classname := idx2labels cls_idx
  { cls := classname, confidence := confidence, bbox := interpret_box boxes img_size }

theorem pyInt_intCast (n : ℤ) : pyInt ((n : ℚ)) = n := by
  unfold pyInt
  split
  · exact Int.floor_intCast n
  · exact Int.ceil_intCast n

/-! ## Claims C6 and C7: the corner/center transform -/

/-- C6 (amended): for every valid annotation (integer corner-form box
with ordered corners lying inside its stated image of positive size),
converting the box to center form as `tensorize_ground_truth` does and
back to corner form as `interpret_output` does (with the same image
size) returns the original corner-form box exactly when the float
arithmetic is exact: the transform itself is invertible, the clamps are
inactive, and the scale factors cancel. (In the source's IEEE double
arithmetic the final `int()` truncation can instead lose a pixel; see
the C6 counterexample below.) -/
theorem tensorize_interpret_round_trip
    (labels2idx : String → ℕ) (num_classes : ℕ) (idx2labels : ℕ → String)
    (cls : List ℚ) (c : String) (X1 Y1 X2 Y2 W H : ℤ)
    (hW : 0 < W) (hH : 0 < H)
    (hx0 : 0 ≤ X1) (hx12 : X1 ≤ X2) (hxW : X2 ≤ W)
    (hy0 : 0 ≤ Y1) (hy12 : Y1 ≤ Y2) (hyH : Y2 ≤ H) :
    ∀ b, (tensorize_ground_truth labels2idx num_classes
            [⟨c, (X1, Y1, X2, Y2), (W, H)⟩]).2 = [b] →
      (interpret_output idx2labels cls b (W, H)).bbox = (X1, Y1, X2, Y2) := by
  intro b hb
  have hbb : b = tensorize_box ⟨c, (X1, Y1, X2, Y2), (W, H)⟩ := by
    simpa [tensorize_ground_truth] using hb.symm
  subst hbb
  show interpret_box (tensorize_box ⟨c, (X1, Y1, X2, Y2), (W, H)⟩) (W, H) =
    (X1, Y1, X2, Y2)
  have hWQ : (0 : ℚ) < (W : ℚ) := by exact_mod_cast hW
  have hHQ : (0 : ℚ) < (H : ℚ) := by exact_mod_cast hH
  have hX1 : (0 : ℚ) ≤ (X1 : ℚ) := by exact_mod_cast hx0
  have hX2W : (X2 : ℚ) ≤ (W : ℚ) := by exact_mod_cast hxW
  have hY1 : (0 : ℚ) ≤ (Y1 : ℚ) := by exact_mod_cast hy0
  have hY2H : (Y2 : ℚ) ≤ (H : ℚ) := by exact_mod_cast hyH
  have hmid : ∀ a b : ℚ, (a + b) / 2 - (a - b) / 2 = b := fun a b => by ring
  have hmid2 : ∀ a b : ℚ, (a + b) / 2 + (a - b) / 2 = a := fun a b => by ring
  have hx1q : (0 : ℚ) ≤ (X1 : ℚ) * 224 / W :=
    div_nonneg (mul_nonneg hX1 (by norm_num)) hWQ.le
  have hy1q : (0 : ℚ) ≤ (Y1 : ℚ) * 224 / H :=
    div_nonneg (mul_nonneg hY1 (by norm_num)) hHQ.le
  have hx2q : (X2 : ℚ) * 224 / W ≤ 224 := by
    rw [div_le_iff₀ hWQ]
    nlinarith
  have hy2q : (Y2 : ℚ) * 224 / H ≤ 224 := by
    rw [div_le_iff₀ hHQ]
    nlinarith
  have hcw : ∀ a : ℚ, a * 224 / W * W / 224 = a := fun a => by field_simp
  have hch : ∀ a : ℚ, a * 224 / H * H / 224 = a := fun a => by field_simp
  simp only [interpret_box, tensorize_box, img_resize]
  rw [hmid, hmid2, hmid, hmid2,
    max_eq_right hx1q, max_eq_right hy1q, min_eq_right hx2q, min_eq_right hy2q,
    hcw, hch, hcw, hch, pyInt_intCast, pyInt_intCast, pyInt_intCast, pyInt_intCast]

/-- C6 (witness): the exact-arithmetic round trip at the concrete
annotation with class "car", box [47, 35, 147, 101] and image size
(500, 333). -/
theorem tensorize_interpret_round_trip_witness :
    (interpret_output (fun _ => "car") []
        (tensorize_box ⟨"car", (47, 35, 147, 101), (500, 333)⟩)
        (500, 333)).bbox = (47, 35, 147, 101) :=
  tensorize_interpret_round_trip (fun _ => 0) 1 (fun _ => "car") []
    "car" 47 35 147 101 500 333
    (by norm_num) (by norm_num) (by norm_num) (by norm_num) (by norm_num)
    (by norm_num) (by norm_num) (by norm_num)
    (tensorize_box ⟨"car", (47, 35, 147, 101), (500, 333)⟩) rfl

/-! ### IEEE double-precision model of the same pipeline (for claim C6)

The notebook executes the box transform in Python floats (IEEE-754
binary64). Every finite double is an exact rational, and each arithmetic
operation rounds its exact result to 53 bits of precision, to nearest,
ties to even. `roundDouble` is that rounding step (for results in the
normal range, which covers every value of this pipeline); `fadd`,
`fsub`, `fmul` and `fdiv` are the rounded operations. -/

/-- Round an exact rational to the nearest IEEE-754 binary64 value
(53-bit precision, round to nearest, ties to even; normal range). -/
def roundDouble (q : ℚ) : ℚ :=
  if q = 0 then 0
  else
    let s : ℚ := if q < 0 then -1 else 1
    let a : ℚ := |q|
    let e : ℤ := Int.log 2 a
    let scale : ℚ := 2 ^ (52 - e)
    let m : ℚ := a * scale
    let n : ℤ := ⌊m⌋
    let frac : ℚ := m - (n : ℚ)
    let n2 : ℤ :=
      if frac < 1 / 2 then n
      else if 1 / 2 < frac then n + 1
      else if n % 2 = 0 then n else n + 1
    s * ((n2 : ℚ) / scale)

theorem roundDouble_log (q : ℚ) (k : ℕ) (hq : 0 < q)
    (h1 : (2 : ℚ) ^ 52 ≤ q * 2 ^ k) (h2 : q * 2 ^ k < 2 ^ 53) :
    Int.log 2 q = 52 - (k : ℤ) := by
  have hkpos : (0 : ℚ) < (2 : ℚ) ^ (k : ℤ) := by positivity
  have hcast : ((2 : ℕ) : ℚ) = (2 : ℚ) := by norm_num
  have hle : (52 - (k : ℤ)) ≤ Int.log 2 q := by
    rw [← Int.zpow_le_iff_le_log one_lt_two hq, hcast,
      zpow_sub₀ (by norm_num : (2 : ℚ) ≠ 0), div_le_iff₀ hkpos, zpow_natCast]
    have h52 : ((2 : ℚ) ^ (52 : ℤ)) = 2 ^ (52 : ℕ) := by norm_num
    rw [h52]
    exact h1
  have hlt : Int.log 2 q < (52 - (k : ℤ)) + 1 := by
    rw [← Int.lt_zpow_iff_log_lt one_lt_two hq, hcast]
    have he : (52 - (k : ℤ)) + 1 = 53 - (k : ℤ) := by ring
    rw [he, zpow_sub₀ (by norm_num : (2 : ℚ) ≠ 0), lt_div_iff₀ hkpos, zpow_natCast]
    have h53 : ((2 : ℚ) ^ (53 : ℤ)) = 2 ^ (53 : ℕ) := by norm_num
    rw [h53]
    exact h2
  omega

/-- Evaluation of `roundDouble` when the 53-bit scaled value rounds down:
`k` is the scale exponent and `n` the scaled floor. -/
theorem roundDouble_eq_down (q : ℚ) (k : ℕ) (n : ℤ) (hq : 0 < q)
    (h1 : (2 : ℚ) ^ 52 ≤ q * 2 ^ k) (h2 : q * 2 ^ k < 2 ^ 53)
    (h3 : (n : ℚ) ≤ q * 2 ^ k) (h4 : q * 2 ^ k - (n : ℚ) < 1 / 2) :
    roundDouble q = (n : ℚ) / 2 ^ k := by
  have hlog := roundDouble_log q k hq h1 h2
  have hsc : (52 : ℤ) - (52 - (k : ℤ)) = (k : ℤ) := by ring
  simp only [roundDouble]
  rw [if_neg (ne_of_gt hq), abs_of_pos hq, if_neg (not_lt.mpr hq.le),
    hlog, hsc, zpow_natCast]
  have hfl : ⌊q * 2 ^ k⌋ = n := by
    rw [Int.floor_eq_iff]
    exact ⟨h3, by linarith⟩
  rw [hfl, if_pos (by linarith : q * (2 : ℚ) ^ k - (n : ℚ) < 1 / 2), one_mul]

/-- Evaluation of `roundDouble` when the 53-bit scaled value rounds up. -/
theorem roundDouble_eq_up (q : ℚ) (k : ℕ) (n : ℤ) (hq : 0 < q)
    (h1 : (2 : ℚ) ^ 52 ≤ q * 2 ^ k) (h2 : q * 2 ^ k < 2 ^ 53)
    (h3 : (n : ℚ) ≤ q * 2 ^ k) (h4 : 1 / 2 < q * 2 ^ k - (n : ℚ))
    (h5 : q * 2 ^ k - (n : ℚ) < 1) :
    roundDouble q = ((n : ℚ) + 1) / 2 ^ k := by
  have hlog := roundDouble_log q k hq h1 h2
  have hsc : (52 : ℤ) - (52 - (k : ℤ)) = (k : ℤ) := by ring
  simp only [roundDouble]
  rw [if_neg (ne_of_gt hq), abs_of_pos hq, if_neg (not_lt.mpr hq.le),
    hlog, hsc, zpow_natCast]
  have hfl : ⌊q * 2 ^ k⌋ = n := by
    rw [Int.floor_eq_iff]
    exact ⟨h3, by linarith⟩
  rw [hfl, if_neg (not_lt.mpr h4.le),
    if_pos (by linarith : (1 : ℚ) / 2 < q * (2 : ℚ) ^ k - (n : ℚ)), one_mul]
  push_cast
  ring

/-- Evaluation of `roundDouble` at an exact tie with even scaled floor. -/
theorem roundDouble_eq_tie_even (q : ℚ) (k : ℕ) (n : ℤ) (hq : 0 < q)
    (h1 : (2 : ℚ) ^ 52 ≤ q * 2 ^ k) (h2 : q * 2 ^ k < 2 ^ 53)
    (h3 : q * 2 ^ k - (n : ℚ) = 1 / 2) (h4 : n % 2 = 0) :
    roundDouble q = (n : ℚ) / 2 ^ k := by
  have hlog := roundDouble_log q k hq h1 h2
  have hsc : (52 : ℤ) - (52 - (k : ℤ)) = (k : ℤ) := by ring
  simp only [roundDouble]
  rw [if_neg (ne_of_gt hq), abs_of_pos hq, if_neg (not_lt.mpr hq.le),
    hlog, hsc, zpow_natCast]
  have hfl : ⌊q * 2 ^ k⌋ = n := by
    rw [Int.floor_eq_iff]
    exact ⟨by linarith, by linarith⟩
  rw [hfl, if_neg (not_lt.mpr (by linarith : (1 : ℚ) / 2 ≤ q * (2 : ℚ) ^ k - (n : ℚ))),
    if_neg (not_lt.mpr (by linarith : q * (2 : ℚ) ^ k - (n : ℚ) ≤ 1 / 2)),
    if_pos h4, one_mul]

/-- Evaluation of `roundDouble` at an exact tie with odd scaled floor. -/
theorem roundDouble_eq_tie_odd (q : ℚ) (k : ℕ) (n : ℤ) (hq : 0 < q)
    (h1 : (2 : ℚ) ^ 52 ≤ q * 2 ^ k) (h2 : q * 2 ^ k < 2 ^ 53)
    (h3 : q * 2 ^ k - (n : ℚ) = 1 / 2) (h4 : n % 2 = 1) :
    roundDouble q = ((n : ℚ) + 1) / 2 ^ k := by
  have hlog := roundDouble_log q k hq h1 h2
  have hsc : (52 : ℤ) - (52 - (k : ℤ)) = (k : ℤ) := by ring
  simp only [roundDouble]
  rw [if_neg (ne_of_gt hq), abs_of_pos hq, if_neg (not_lt.mpr hq.le),
    hlog, hsc, zpow_natCast]
  have hfl : ⌊q * 2 ^ k⌋ = n := by
    rw [Int.floor_eq_iff]
    exact ⟨by linarith, by linarith⟩
  rw [hfl, if_neg (not_lt.mpr (by linarith : (1 : ℚ) / 2 ≤ q * (2 : ℚ) ^ k - (n : ℚ))),
    if_neg (not_lt.mpr (by linarith : q * (2 : ℚ) ^ k - (n : ℚ) ≤ 1 / 2)),
    if_neg (by omega : ¬ n % 2 = 0), one_mul]
  push_cast
  ring

/-- Double-precision addition: exact sum, then one rounding. -/
def fadd (x y : ℚ) : ℚ := roundDouble (x + y)

/-- Double-precision subtraction: exact difference, then one rounding. -/
def fsub (x y : ℚ) : ℚ := roundDouble (x - y)

/-- Double-precision multiplication: exact product, then one rounding. -/
def fmul (x y : ℚ) : ℚ := roundDouble (x * y)

/-- Double-precision division: exact quotient, then one rounding (the
Python `int / int` and `float / int` divisions of the pipeline are each
a single correctly rounded operation). -/
def fdiv (x y : ℚ) : ℚ := roundDouble (x / y)

/-- The box computation of `tensorize_ground_truth` at IEEE double
precision: `coords[i] * img_resize` is exact Python integer arithmetic,
after which every `/`, `+` and `-` rounds once. -/
def tensorize_box_double (ann : AnnRecord) : ℚ × ℚ × ℚ × ℚ :=
  let coords := ann.bbox
  let size := ann.size
  let x1 := fdiv ((coords.1 : ℚ) * img_resize) ((size.1 : ℚ))
  let y1 := fdiv ((coords.2.1 : ℚ) * img_resize) ((size.2 : ℚ))
  let x2 := fdiv ((coords.2.2.1 : ℚ) * img_resize) ((size.1 : ℚ))
  let y2 := fdiv ((coords.2.2.2 : ℚ) * img_resize) ((size.2 : ℚ))
  let cx := fdiv (fadd x2 x1) 2
  let cy := fdiv (fadd y2 y1) 2
  let w := fsub x2 x1
  let h := fsub y2 y1
  (cx, cy, w, h)

/-- The box computation of `interpret_output` at IEEE double precision:
every `/`, `+`, `-` and `*` rounds once, `max`/`min` compare exactly,
and `int()` truncates the final double toward zero. -/
def interpret_box_double (boxes : ℚ × ℚ × ℚ × ℚ) (img_size : ℤ × ℤ) : ℤ × ℤ × ℤ × ℤ :=
  let cx := boxes.1
  let cy := boxes.2.1
  let w := boxes.2.2.1
  let h := boxes.2.2.2
  let small0 := max 0 (fsub cx (fdiv w 2))
  let small1 := max 0 (fsub cy (fdiv h 2))
  let small2 := min img_resize (fadd cx (fdiv w 2))
  let small3 := min img_resize (fadd cy (fdiv h 2))
  (pyInt (fdiv (fmul small0 ((img_size.1 : ℚ))) img_resize),
   pyInt (fdiv (fmul small1 ((img_size.2 : ℚ))) img_resize),
   pyInt (fdiv (fmul small2 ((img_size.1 : ℚ))) img_resize),
   pyInt (fdiv (fmul small3 ((img_size.2 : ℚ))) img_resize))

/-- C6 (counterexample): the claim that the corner to center to corner
round trip returns the original box exactly (up to floating-point
epsilon) is false of the source's double-precision arithmetic: for the
box [47, 35, 147, 101] with image size (500, 333) the pipeline returns
[46, 34, 147, 100] - three coordinates land one ulp below the original
integer and the `int()` truncation drops each by a whole pixel. -/
theorem tensorize_interpret_double_counterexample :
    interpret_box_double
        (tensorize_box_double ⟨"car", (47, 35, 147, 101), (500, 333)⟩)
        (500, 333) = (46, 34, 147, 100) ∧
      ((46, 34, 147, 100) : ℤ × ℤ × ℤ × ℤ) ≠ (47, 35, 147, 101) := by
  refine ⟨?_, by decide⟩
  have h1 : fdiv (((47 : ℤ) : ℚ) * 224) ((500 : ℤ) : ℚ) = 5926737109619573 / 2 ^ 48 := by
    unfold fdiv
    rw [roundDouble_eq_up (((47 : ℤ) : ℚ) * 224 / ((500 : ℤ) : ℚ)) 48 5926737109619572
      (by norm_num) (by norm_num) (by norm_num) (by norm_num) (by norm_num) (by norm_num)]
    norm_num
  have h2 : fdiv (((35 : ℤ) : ℚ) * 224) ((333 : ℤ) : ℚ) = 6626918370605234 / 2 ^ 48 := by
    unfold fdiv
    rw [roundDouble_eq_down (((35 : ℤ) : ℚ) * 224 / ((333 : ℤ) : ℚ)) 48 6626918370605234
      (by norm_num) (by norm_num) (by norm_num) (by norm_num) (by norm_num)]
    norm_num
  have h3 : fdiv (((147 : ℤ) : ℚ) * 224) ((500 : ℤ) : ℚ) = 4634204016564240 / 2 ^ 46 := by
    unfold fdiv
    rw [roundDouble_eq_down (((147 : ℤ) : ℚ) * 224 / ((500 : ℤ) : ℚ)) 46 4634204016564240
      (by norm_num) (by norm_num) (by norm_num) (by norm_num) (by norm_num)]
    norm_num
  have h4 : fdiv (((101 : ℤ) : ℚ) * 224) ((333 : ℤ) : ℚ) = 4780848253079490 / 2 ^ 46 := by
    unfold fdiv
    rw [roundDouble_eq_down (((101 : ℤ) : ℚ) * 224 / ((333 : ℤ) : ℚ)) 46 4780848253079490
      (by norm_num) (by norm_num) (by norm_num) (by norm_num) (by norm_num)]
    norm_num
  have h5 : fadd (4634204016564240 / 2 ^ 46) (5926737109619573 / 2 ^ 48) = 6115888293969133 / 2 ^ 46 := by
    unfold fadd
    rw [roundDouble_eq_down (4634204016564240 / 2 ^ 46 + 5926737109619573 / 2 ^ 48) 46 6115888293969133
      (by norm_num) (by norm_num) (by norm_num) (by norm_num) (by norm_num)]
    norm_num
  have h6 : fdiv (6115888293969133 / 2 ^ 46) 2 = 6115888293969133 / 2 ^ 47 := by
    unfold fdiv
    rw [roundDouble_eq_down (6115888293969133 / 2 ^ 46 / 2) 47 6115888293969133
      (by norm_num) (by norm_num) (by norm_num) (by norm_num) (by norm_num)]
    norm_num
  have h7 : fadd (4780848253079490 / 2 ^ 46) (6626918370605234 / 2 ^ 48) = 6437577845730798 / 2 ^ 46 := by
    unfold fadd
    rw [roundDouble_eq_tie_even (4780848253079490 / 2 ^ 46 + 6626918370605234 / 2 ^ 48) 46 6437577845730798
      (by norm_num) (by norm_num) (by norm_num) (by norm_num) (by norm_num)]
    norm_num
  have h8 : fdiv (6437577845730798 / 2 ^ 46) 2 = 6437577845730798 / 2 ^ 47 := by
    unfold fdiv
    rw [roundDouble_eq_down (6437577845730798 / 2 ^ 46 / 2) 47 6437577845730798
      (by norm_num) (by norm_num) (by norm_num) (by norm_num) (by norm_num)]
    norm_num
  have h9 : fsub (4634204016564240 / 2 ^ 46) (5926737109619573 / 2 ^ 48) = 6305039478318694 / 2 ^ 47 := by
    unfold fsub
    rw [roundDouble_eq_tie_odd (4634204016564240 / 2 ^ 46 - 5926737109619573 / 2 ^ 48) 47 6305039478318693
      (by norm_num) (by norm_num) (by norm_num) (by norm_num) (by norm_num)]
    norm_num
  have h10 : fsub (4780848253079490 / 2 ^ 46) (6626918370605234 / 2 ^ 48) = 6248237320856363 / 2 ^ 47 := by
    unfold fsub
    rw [roundDouble_eq_down (4780848253079490 / 2 ^ 46 - 6626918370605234 / 2 ^ 48) 47 6248237320856363
      (by norm_num) (by norm_num) (by norm_num) (by norm_num) (by norm_num)]
    norm_num
  have e1 : tensorize_box_double ⟨"car", (47, 35, 147, 101), (500, 333)⟩ =
      (6115888293969133 / 2 ^ 47, 6437577845730798 / 2 ^ 47, 6305039478318694 / 2 ^ 47, 6248237320856363 / 2 ^ 47) := by
    simp only [tensorize_box_double, img_resize]
    rw [h1, h2, h3, h4, h5, h6, h7, h8, h9, h10]
  have h11 : fdiv (6305039478318694 / 2 ^ 47) 2 = 6305039478318694 / 2 ^ 48 := by
    unfold fdiv
    rw [roundDouble_eq_down (6305039478318694 / 2 ^ 47 / 2) 48 6305039478318694
      (by norm_num) (by norm_num) (by norm_num) (by norm_num) (by norm_num)]
    norm_num
  have h12 : fdiv (6248237320856363 / 2 ^ 47) 2 = 6248237320856363 / 2 ^ 48 := by
    unfold fdiv
    rw [roundDouble_eq_down (6248237320856363 / 2 ^ 47 / 2) 48 6248237320856363
      (by norm_num) (by norm_num) (by norm_num) (by norm_num) (by norm_num)]
    norm_num
  have h13 : fsub (6115888293969133 / 2 ^ 47) (6305039478318694 / 2 ^ 48) = 5926737109619572 / 2 ^ 48 := by
    unfold fsub
    rw [roundDouble_eq_down (6115888293969133 / 2 ^ 47 - 6305039478318694 / 2 ^ 48) 48 5926737109619572
      (by norm_num) (by norm_num) (by norm_num) (by norm_num) (by norm_num)]
    norm_num
  have h14 : fsub (6437577845730798 / 2 ^ 47) (6248237320856363 / 2 ^ 48) = 6626918370605233 / 2 ^ 48 := by
    unfold fsub
    rw [roundDouble_eq_down (6437577845730798 / 2 ^ 47 - 6248237320856363 / 2 ^ 48) 48 6626918370605233
      (by norm_num) (by norm_num) (by norm_num) (by norm_num) (by norm_num)]
    norm_num
  have h15 : fadd (6115888293969133 / 2 ^ 47) (6305039478318694 / 2 ^ 48) = 4634204016564240 / 2 ^ 46 := by
    unfold fadd
    rw [roundDouble_eq_down (6115888293969133 / 2 ^ 47 + 6305039478318694 / 2 ^ 48) 46 4634204016564240
      (by norm_num) (by norm_num) (by norm_num) (by norm_num) (by norm_num)]
    norm_num
  have h16 : fadd (6437577845730798 / 2 ^ 47) (6248237320856363 / 2 ^ 48) = 4780848253079490 / 2 ^ 46 := by
    unfold fadd
    rw [roundDouble_eq_up (6437577845730798 / 2 ^ 47 + 6248237320856363 / 2 ^ 48) 46 4780848253079489
      (by norm_num) (by norm_num) (by norm_num) (by norm_num) (by norm_num) (by norm_num)]
    norm_num
  have h17 : max (0 : ℚ) (5926737109619572 / 2 ^ 48) = 5926737109619572 / 2 ^ 48 :=
    max_eq_right (by norm_num)
  have h18 : max (0 : ℚ) (6626918370605233 / 2 ^ 48) = 6626918370605233 / 2 ^ 48 :=
    max_eq_right (by norm_num)
  have h19 : min (224 : ℚ) (4634204016564240 / 2 ^ 46) = 4634204016564240 / 2 ^ 46 :=
    min_eq_right (by norm_num)
  have h20 : min (224 : ℚ) (4780848253079490 / 2 ^ 46) = 4780848253079490 / 2 ^ 46 :=
    min_eq_right (by norm_num)
  have h21 : fmul (5926737109619572 / 2 ^ 48) ((500 : ℤ) : ℚ) = 5787829208612863 / 2 ^ 39 := by
    unfold fmul
    rw [roundDouble_eq_down (5926737109619572 / 2 ^ 48 * ((500 : ℤ) : ℚ)) 39 5787829208612863
      (by norm_num) (by norm_num) (by norm_num) (by norm_num) (by norm_num)]
    norm_num
  have h22 : fmul (6626918370605233 / 2 ^ 48) ((333 : ℤ) : ℚ) = 8620171161763838 / 2 ^ 40 := by
    unfold fmul
    rw [roundDouble_eq_down (6626918370605233 / 2 ^ 48 * ((333 : ℤ) : ℚ)) 40 8620171161763838
      (by norm_num) (by norm_num) (by norm_num) (by norm_num) (by norm_num)]
    norm_num
  have h23 : fmul (4634204016564240 / 2 ^ 46) ((500 : ℤ) : ℚ) = 4525589859926016 / 2 ^ 37 := by
    unfold fmul
    rw [roundDouble_eq_up (4634204016564240 / 2 ^ 46 * ((500 : ℤ) : ℚ)) 37 4525589859926015
      (by norm_num) (by norm_num) (by norm_num) (by norm_num) (by norm_num) (by norm_num)]
    norm_num
  have h24 : fmul (4780848253079490 / 2 ^ 46) ((333 : ℤ) : ℚ) = 6218837766701055 / 2 ^ 38 := by
    unfold fmul
    rw [roundDouble_eq_down (4780848253079490 / 2 ^ 46 * ((333 : ℤ) : ℚ)) 38 6218837766701055
      (by norm_num) (by norm_num) (by norm_num) (by norm_num) (by norm_num)]
    norm_num
  have h25 : fdiv (5787829208612863 / 2 ^ 39) 224 = 6614661952700415 / 2 ^ 47 := by
    unfold fdiv
    rw [roundDouble_eq_up (5787829208612863 / 2 ^ 39 / 224) 47 6614661952700414
      (by norm_num) (by norm_num) (by norm_num) (by norm_num) (by norm_num) (by norm_num)]
    norm_num
  have h26 : fdiv (8620171161763838 / 2 ^ 40) 224 = 4925812092436479 / 2 ^ 47 := by
    unfold fdiv
    rw [roundDouble_eq_up (8620171161763838 / 2 ^ 40 / 224) 47 4925812092436478
      (by norm_num) (by norm_num) (by norm_num) (by norm_num) (by norm_num) (by norm_num)]
    norm_num
  have h27 : fdiv (4525589859926016 / 2 ^ 37) 224 = 5172102697058304 / 2 ^ 45 := by
    unfold fdiv
    rw [roundDouble_eq_down (4525589859926016 / 2 ^ 37 / 224) 45 5172102697058304
      (by norm_num) (by norm_num) (by norm_num) (by norm_num) (by norm_num)]
    norm_num
  have h28 : fdiv (6218837766701055 / 2 ^ 38) 224 = 7107243161944063 / 2 ^ 46 := by
    unfold fdiv
    rw [roundDouble_eq_up (6218837766701055 / 2 ^ 38 / 224) 46 7107243161944062
      (by norm_num) (by norm_num) (by norm_num) (by norm_num) (by norm_num) (by norm_num)]
    norm_num
  have h29 : pyInt (6614661952700415 / 2 ^ 47) = 46 := by
    unfold pyInt
    rw [if_pos (by norm_num : (0 : ℚ) ≤ 6614661952700415 / 2 ^ 47)]
    rw [Int.floor_eq_iff]
    constructor <;> norm_num
  have h30 : pyInt (4925812092436479 / 2 ^ 47) = 34 := by
    unfold pyInt
    rw [if_pos (by norm_num : (0 : ℚ) ≤ 4925812092436479 / 2 ^ 47)]
    rw [Int.floor_eq_iff]
    constructor <;> norm_num
  have h31 : pyInt (5172102697058304 / 2 ^ 45) = 147 := by
    unfold pyInt
    rw [if_pos (by norm_num : (0 : ℚ) ≤ 5172102697058304 / 2 ^ 45)]
    rw [Int.floor_eq_iff]
    constructor <;> norm_num
  have h32 : pyInt (7107243161944063 / 2 ^ 46) = 100 := by
    unfold pyInt
    rw [if_pos (by norm_num : (0 : ℚ) ≤ 7107243161944063 / 2 ^ 46)]
    rw [Int.floor_eq_iff]
    constructor <;> norm_num
  rw [e1]
  simp only [interpret_box_double, img_resize]
  rw [h11, h12, h13, h14, h15, h16, h17, h18, h19, h20, h21, h22, h23, h24, h25, h26, h27, h28, h29, h30, h31, h32]

/-- C7: the rescaling applies the width scale factor `img_resize / width`
to the x-related values (so `cx` and `w` are the center and width of the
original x-interval times that factor) and, independently, the height
scale factor `img_resize / height` to the y-related values, in the
forward transform `tensorize_ground_truth`; the inverse transform
`interpret_output` applies the inverse factors `width / img_resize` to
the x entries and `height / img_resize` to the y entries. -/
theorem axis_scaling
    (labels2idx : String → ℕ) (num_classes : ℕ) (idx2labels : ℕ → String)
    (anns : List AnnRecord) (cls : List ℚ) (boxes : ℚ × ℚ × ℚ × ℚ) (s : ℤ × ℤ) :
    ((tensorize_ground_truth labels2idx num_classes anns).2 =
      anns.map (fun ann =>
        ((((ann.bbox.1 : ℚ) + (ann.bbox.2.2.1 : ℚ)) / 2) * (img_resize / (ann.size.1 : ℚ)),
         (((ann.bbox.2.1 : ℚ) + (ann.bbox.2.2.2 : ℚ)) / 2) * (img_resize / (ann.size.2 : ℚ)),
         ((ann.bbox.2.2.1 : ℚ) - (ann.bbox.1 : ℚ)) * (img_resize / (ann.size.1 : ℚ)),
         ((ann.bbox.2.2.2 : ℚ) - (ann.bbox.2.1 : ℚ)) * (img_resize / (ann.size.2 : ℚ))))) ∧
    ((interpret_output idx2labels cls boxes s).bbox =
      (pyInt ((max 0 (boxes.1 - boxes.2.2.1 / 2)) * ((s.1 : ℚ) / img_resize)),
       pyInt ((max 0 (boxes.2.1 - boxes.2.2.2 / 2)) * ((s.2 : ℚ) / img_resize)),
       pyInt ((min img_resize (boxes.1 + boxes.2.2.1 / 2)) * ((s.1 : ℚ) / img_resize)),
       pyInt ((min img_resize (boxes.2.1 + boxes.2.2.2 / 2)) * ((s.2 : ℚ) / img_resize)))) := by
  constructor
  · simp only [tensorize_ground_truth]
    congr 1
    funext ann
    simp only [tensorize_box, Prod.mk.injEq]
    refine ⟨by ring, by ring, by ring, by ring⟩
  · show interpret_box boxes s = _
    simp only [interpret_box, Prod.mk.injEq]
    refine ⟨?_, ?_, ?_, ?_⟩ <;> · congr 1; ring

/-! ## Claim C8: text generation (`Assignment_2.ipynb`) -/

/-- The trained RNN model of `Assignment_2.ipynb`, reduced to its inference
interface: `model.predict(sequence)` returns a probability distribution
over the fixed vocabulary (`VOCAB_SIZE` entries). -/
structure LanguageModel where
  predict : List ℕ → List ℚ

/-- `get_predicted_word(model, sequence)` from `Assignment_2.ipynb`:

```python
yhat = model.predict(sequence, verbose=0)
yhat = np.random.choice(range(VOCAB_SIZE), p=yhat.ravel())
return yhat
```

The library call `np.random.choice(range(VOCAB_SIZE), p=yhat)` (sampling
one token index from the distribution) is modelled by the oracle
parameter `choice`. -/
def get_predicted_word (choice : List ℚ → ℕ) (model : LanguageModel)
    (sequence : List ℕ) : ℕ :=
  let yhat := model.predict sequence
  choice yhat

/-- `generate_text(model, tokenizer, seed_text, max_sequence_len)` from
`Assignment_2.ipynb`. The body in the source is the unfilled exercise
stub `return None`, modelled as `none` (the tokenizer and the result type
are abstract since the stub never touches them). -/
def generate_text {α β : Type} (model : LanguageModel) (tokenizer : α)
    (seed_text : String) (max_sequence_len : ℕ) : Option β :=
  none

/-- C8 (counterexample): the claim that `generate_text` (with helper
`get_predicted_word`) loops, appending chosen tokens to a growing
sequence, and returns the generated sequence, is false on the source: at
the notebook's own test call (seed "hamlet") it returns `None`, not a
generated sequence. -/
theorem generate_text_counterexample :
    (generate_text ⟨fun _ => []⟩ ([] : List String) "hamlet" 40 :
      Option (List ℕ)) = none := rfl

/-- C8 (amended): `get_predicted_word` performs a single model query,
obtaining the next-token probability distribution over the fixed
vocabulary, and returns one token index sampled from it; `generate_text`
itself is an unimplemented exercise stub that returns `None` on every
input instead of a generated sequence. -/
theorem generate_text_stub {α β : Type} (model : LanguageModel)
    (tokenizer : α) (seed_text : String) (max_sequence_len : ℕ)
    (choice : List ℚ → ℕ) (sequence : List ℕ) :
    (generate_text model tokenizer seed_text max_sequence_len :
        Option β) = none ∧
      get_predicted_word choice model sequence =
        choice (model.predict sequence) :=
  ⟨rfl, rfl⟩

/-! ## Claim C9: `camera_grab` (webcam lab) -/

/-- The loop `for i in range(10): snapshot_ok, image = camera.read()` of
`camera_grab`: performs `n` successive reads starting at call index `i`,
keeping only the last result; a raised exception aborts the loop.
`camera` maps the index of a `camera.read()` call to its outcome
(`Except.error` models a raised exception). -/
def read_loop {E Image : Type} (camera : ℕ → Except E (Bool × Image)) :
    ℕ → ℕ → Option (Bool × Image) → Except E (Option (Bool × Image))
  | _, 0, last => Except.ok last
  | i, n + 1, _ =>
      match camera i with
      | Except.error e => Except.error e
      | Except.ok r => read_loop camera (i + 1) n (some r)

/-- `camera_grab(camera_id, fallback_filename)` from the webcam lab:

```python
camera = cv2.VideoCapture(camera_id)
try:
    for i in range(10):
        snapshot_ok, image = camera.read()
    if snapshot_ok:
        image = cv2.cvtColor(image, cv2.COLOR_BGR2RGB)
    else:
        print("WARNING: could not access camera")
        if fallback_filename:
            image = imread(fallback_filename)
finally:
    camera.release()
return image
```

The first component of the result records whether `camera.release()` was
executed (the `finally` block); the second is the returned image or the
propagated exception. `cv2.cvtColor` and `imread` are abstract
parameters; the `ok none` case models the Python `UnboundLocalError`
that a zero-iteration loop would raise (unreachable for `range(10)`). -/
def camera_grab {E Image : Type} (cvtColor : Image → Image)
    (imread : String → Image) (camera : ℕ → Except E (Bool × Image))
    (fallback_filename : Option String) : Bool × Except E (Option Image) :=
  match read_loop camera 0 10 none with
  | Except.error e => (true, Except.error e)
  | Except.ok none => (true, Except.ok none)
  | Except.ok (some (snapshot_ok, image)) =>
      if snapshot_ok then (true, Except.ok (some (cvtColor image)))
      else
        match fallback_filename with
        | some f => (true, Except.ok (some (imread f)))
        | none => (true, Except.ok (some image))

/-- C9: `camera_grab` releases the camera device on every execution path,
including when an exception is raised during capture; and when the final
(tenth) snapshot reports failure and a `fallback_filename` is provided,
it returns the image read from that fallback file instead of a camera
frame. -/
theorem camera_grab_spec {E Image : Type} (cvtColor : Image → Image)
    (imread : String → Image) (camera : ℕ → Except E (Bool × Image))
    (fb : Option String) :
    ((camera_grab cvtColor imread camera fb).1 = true) ∧
    (∀ (f : String) (img : Image),
      (∀ i, i < 9 → ∃ r, camera i = Except.ok r) →
      camera 9 = Except.ok (false, img) →
      fb = some f →
      (camera_grab cvtColor imread camera fb).2 =
        Except.ok (some (imread f))) := by
  constructor
  · unfold camera_grab
    rcases h : read_loop camera 0 10 none with e | v
    · rfl
    · rcases v with _ | ⟨ok, img⟩
      · rfl
      · rcases ok <;> rcases fb <;> rfl
  · intro f img hr h9 hf
    obtain ⟨r0, h0⟩ := hr 0 (by norm_num)
    obtain ⟨r1, h1⟩ := hr 1 (by norm_num)
    obtain ⟨r2, h2⟩ := hr 2 (by norm_num)
    obtain ⟨r3, h3⟩ := hr 3 (by norm_num)
    obtain ⟨r4, h4⟩ := hr 4 (by norm_num)
    obtain ⟨r5, h5⟩ := hr 5 (by norm_num)
    obtain ⟨r6, h6⟩ := hr 6 (by norm_num)
    obtain ⟨r7, h7⟩ := hr 7 (by norm_num)
    obtain ⟨r8, h8⟩ := hr 8 (by norm_num)
    subst hf
    have hloop : read_loop camera 0 10 none = Except.ok (some (false, img)) := by
      simp [read_loop, h0, h1, h2, h3, h4, h5, h6, h7, h8, h9]
    unfold camera_grab
    rw [hloop]
    rfl

/-- C9 (witness): a concrete camera whose every read succeeds but reports
`snapshot_ok = False`, with fallback file "laptop.jpeg": the device is
released and the fallback image is returned. -/
theorem camera_grab_spec_witness :
    ((camera_grab (E := Unit) (id : ℕ → ℕ) (fun _ => 7)
        (fun _ => Except.ok (false, 0)) (some "laptop.jpeg")).1 = true) ∧
    ((camera_grab (E := Unit) (id : ℕ → ℕ) (fun _ => 7)
        (fun _ => Except.ok (false, 0)) (some "laptop.jpeg")).2 =
      Except.ok (some 7)) :=
  ⟨(camera_grab_spec (id : ℕ → ℕ) (fun _ => 7)
      (fun _ => Except.ok (false, 0)) (some "laptop.jpeg")).1,
   (camera_grab_spec (id : ℕ → ℕ) (fun _ => 7)
      (fun _ => Except.ok (false, 0)) (some "laptop.jpeg")).2
    "laptop.jpeg" 0 (fun i _ => ⟨(false, 0), rfl⟩) rfl rfl⟩

/-! ## Claim C10: `accuracy_and_iou` (`Lab_5.ipynb`) -/

/-- View an integer corner-form box (a `"bbox"` entry) as a `Box` for the
duck-typed call `iou(pred["bbox"], true["bbox"])`. -/
def toBox (b : ℤ × ℤ × ℤ × ℤ) : Box :=
  ⟨(b.1 : ℚ), (b.2.1 : ℚ), (b.2.2.1 : ℚ), (b.2.2.2 : ℚ)⟩

/-- The loop of `accuracy_and_iou`:

```python
for pred, true in zip(preds, trues):
    iou_value = iou(pred["bbox"], true["bbox"])
    if pred["class"] == true["class"] and iou_value > threshold:
        sum_valid = sum_valid + 1
    sum_iou = sum_iou + iou_value
    if pred["class"] == true["class"]:
        sum_accurate = sum_accurate + 1
```

threaded over the running sums `(sum_valid, sum_accurate, sum_iou)`; a
`ZeroDivisionError` raised inside `iou` aborts the whole call (`none`). -/
def accuracy_loop (threshold : ℚ) :
    List (DetOutput × AnnRecord) → ℚ × ℚ × ℚ → Option (ℚ × ℚ × ℚ)
  | [], acc => some acc
  | (pred, tru) :: rest, (sum_valid, sum_accurate, sum_iou) =>
      match iou (toBox pred.bbox) (toBox tru.bbox) with
      | none => none
      | some iou_value =>
          let sv := if pred.cls = tru.cls ∧ threshold < iou_value
                    then sum_valid + 1 else sum_valid
          let si := sum_iou + iou_value
          let sa := if pred.cls = tru.cls then sum_accurate + 1 else sum_accurate
          accuracy_loop threshold rest (sv, sa, si)

/-- `accuracy_and_iou(preds, trues, threshold)` from `Lab_5.ipynb`:
returns `(sum_accurate / num, sum_iou / num, sum_valid / num)` with
`num = len(preds)`; the final divisions raise `ZeroDivisionError` when
`num = 0` (modelled as `none`). -/
def accuracy_and_iou (preds : List DetOutput) (trues : List AnnRecord)
    (threshold : ℚ) : Option (ℚ × ℚ × ℚ) :=
  let num : ℚ := (preds.length : ℚ)
  match accuracy_loop threshold (preds.zip trues) (0, 0, 0) with
  | none => none
  | some (sum_valid, sum_accurate, sum_iou) =>
      if num = 0 then none
      else some (sum_accurate / num, sum_iou / num, sum_valid / num)

theorem accuracy_loop_mono (threshold : ℚ) :
    ∀ (l : List (DetOutput × AnnRecord)) (v a s v2 a2 s2 : ℚ),
      v ≤ a → accuracy_loop threshold l (v, a, s) = some (v2, a2, s2) →
        v2 ≤ a2 := by
  intro l
  induction l with
  | nil =>
      intro v a s v2 a2 s2 hva h
      simp only [accuracy_loop, Option.some.injEq, Prod.mk.injEq] at h
      obtain ⟨h1, h2, _⟩ := h
      rw [← h1, ← h2]
      exact hva
  | cons pt rest ih =>
      intro v a s v2 a2 s2 hva h
      obtain ⟨pred, tru⟩ := pt
      simp only [accuracy_loop] at h
      rcases hio : iou (toBox pred.bbox) (toBox tru.bbox) with _ | q
      · rw [hio] at h
        exact absurd h (fun hc => Option.noConfusion hc)
      · rw [hio] at h
        simp only at h
        by_cases hcls : pred.cls = tru.cls
        · by_cases hthr : threshold < q
          · rw [if_pos ⟨hcls, hthr⟩, if_pos hcls] at h
            exact ih _ _ _ _ _ _ (by linarith) h
          · rw [if_neg (fun hc => hthr hc.2), if_pos hcls] at h
            exact ih _ _ _ _ _ _ (by linarith) h
        · rw [if_neg (fun hc => hcls hc.1), if_neg hcls] at h
          exact ih _ _ _ _ _ _ hva h

/-- C10: for every non-empty, equal-length pair of prediction /
ground-truth lists and every threshold, when `accuracy_and_iou` returns
the triple (class accuracy, mean IoU, global accuracy), the global
accuracy (fraction of pairs with matching class AND IoU above the
threshold) is at most the class accuracy (fraction of pairs with
matching class), since every pair counted as valid is also counted as
accurate. -/
theorem accuracy_global_le_class (preds : List DetOutput)
    (trues : List AnnRecord) (threshold : ℚ) (hne : preds ≠ [])
    (hlen : preds.length = trues.length) (acc miou glob : ℚ)
    (h : accuracy_and_iou preds trues threshold = some (acc, miou, glob)) :
    glob ≤ acc := by
  unfold accuracy_and_iou at h
  rcases hl : accuracy_loop threshold (preds.zip trues) (0, 0, 0) with _ | v
  · rw [hl] at h
    exact absurd h (fun hc => Option.noConfusion hc)
  · obtain ⟨sv, sa, si⟩ := v
    rw [hl] at h
    simp only at h
    have hnum : ((preds.length : ℚ)) ≠ 0 := by
      have hlz : preds.length ≠ 0 := fun hc => hne (List.length_eq_zero.mp hc)
      exact_mod_cast hlz
    rw [if_neg hnum] at h
    simp only [Option.some.injEq, Prod.mk.injEq] at h
    obtain ⟨ha, _, hg⟩ := h
    have hsv : sv ≤ sa := accuracy_loop_mono threshold _ 0 0 0 sv sa si le_rfl hl
    have hpos : (0 : ℚ) < (preds.length : ℚ) := by
      rcases preds with _ | ⟨p, ps⟩
      · exact absurd rfl hne
      · simp only [List.length_cons]
        positivity
    rw [← ha, ← hg]
    exact (div_le_div_iff_of_pos_right hpos).mpr hsv

/-- C10 (witness): one prediction matching its ground truth exactly
(class "car", box [0,0,2,2], threshold 1/2): `accuracy_and_iou` returns
class accuracy 1, mean IoU 1 and global accuracy 1, and 1 ≤ 1. -/
theorem accuracy_global_le_class_witness :
    accuracy_and_iou [⟨"car", 1, (0, 0, 2, 2)⟩]
        [⟨"car", (0, 0, 2, 2), (4, 4)⟩] (1 / 2) = some (1, 1, 1) ∧
      (1 : ℚ) ≤ 1 := by
  have hc : accuracy_and_iou [⟨"car", 1, (0, 0, 2, 2)⟩]
      [⟨"car", (0, 0, 2, 2), (4, 4)⟩] (1 / 2) = some (1, 1, 1) := by
    norm_num [accuracy_and_iou, accuracy_loop, iou, toBox]
  exact ⟨hc, accuracy_global_le_class
    [⟨"car", 1, (0, 0, 2, 2)⟩] [⟨"car", (0, 0, 2, 2), (4, 4)⟩] (1 / 2)
    (fun hcon => List.noConfusion hcon) rfl 1 1 1 hc⟩
